import Mathlib

/-!
# ClinicHub appointment scheduling core — shallow embedding

This file embeds the appointment scheduling and queue-allocation engine of
the ClinicHub Django project (`appointments/models.py`, `appointments/views.py`,
`appointments/forms.py`) and proves / refutes the specification claims about it.

Modelling conventions:
- Instants are minutes since an epoch, already normalized to the local time
  zone (`_to_local_aware` is the identity on normalized values, so time-zone
  conversion itself is not re-modelled); the local calendar day of an instant
  is `instant / 1440`.
- The Django ORM table of appointments is a `List Appointment`; primary keys
  are explicit `Nat`s handed out from a `nextPk` counter.
- `full_clean` / database writes that can raise become `Except SchedError`.
- The two partial unique constraints declared in `Appointment.Meta.constraints`
  are checked on every write of the appointments table (`dbConstraintsOk`),
  mirroring their enforcement at the storage layer.
-/

namespace ClinicHub

/-- `AppointmentStatus` enum from `appointments/models.py`. -/
inductive AppointmentStatus where
  | pending
  | completed
  | cancelled
deriving DecidableEq, Repr

/-- `BookingRequestStatus` enum from `appointments/models.py`. -/
inductive BookingRequestStatus where
  | pending
  | confirmed
  | rejected
deriving DecidableEq, Repr

/-- One row of the `Appointment` table (`appointments/models.py`).
`scheduled_time` is an optional local instant in minutes, `scheduled_day`
the denormalized local calendar day derived from it on save. -/
structure Appointment where
  pk : Nat
  patient : Nat
  doctor : Nat
  scheduled_time : Option Nat
  scheduled_day : Option Nat
  queue_number : Option Nat
  iqd_amount : Nat
  notes : String
  status : AppointmentStatus
deriving DecidableEq, Repr

/-- One row of the `PatientBookingRequest` table. -/
structure BookingRequest where
  pk : Nat
  full_name : String
  contact_info : String
  doctor : Nat
  scheduled_time : Nat
  status : BookingRequestStatus
deriving DecidableEq, Repr

/-- The shared mutable store: the two tables owned by the scheduling core,
a fresh primary-key counter, and a count of emitted notifications. -/
structure ClinicState where
  appointments : List Appointment
  bookingRequests : List BookingRequest
  nextPk : Nat
  notifications : Nat
deriving DecidableEq, Repr

/-- Failure outcomes of the scheduling operations (`ValidationError` branches,
`IntegrityError` from the partial unique constraints, and the view-level
refusals in `appointments/views.py`). -/
inductive SchedError where
  | pastTime
  | slotTaken
  | uniqueViolation
  | notFound
  | cannotConfirmCancelled
  | cannotCancelCompleted
  | queueEmpty
deriving DecidableEq, Repr

/-- `PAST_MARGIN = timedelta(minutes=1)` from `appointments/models.py`. -/
def PAST_MARGIN : Nat := 1

/-- Minutes per local calendar day. -/
def MINUTES_PER_DAY : Nat := 1440

/-- Local calendar day of a (normalized) instant: `scheduled_time.astimezone(LOCAL_TZ).date()`. -/
def dayOf (t : Nat) : Nat := t / MINUTES_PER_DAY

/-- `not CANCELLED`, the scoping used by both unique constraints and all
`.exclude(status=AppointmentStatus.CANCELLED)` queries. -/
def isActive (a : Appointment) : Bool := a.status != .cancelled

/-- The clash query of `Appointment.clean`: an active appointment of the same
doctor at exactly the same instant, excluding the row being saved
(`Appointment.objects.exclude(pk=self.pk).filter(doctor_id=..., scheduled_time=aware).exclude(status=CANCELLED)`). -/
def cleanClash (appts : List Appointment) (selfPk doctor t : Nat) : Bool :=
  appts.any fun a =>
    a.pk != selfPk && a.doctor == doctor && a.scheduled_time == some t && isActive a

/-- `Appointment.clean` (`appointments/models.py` lines 125-151): nothing to
validate without a `scheduled_time`; otherwise reject past instants (strictly
earlier than now minus `PAST_MARGIN`) and active same-doctor same-instant
clashes. Over integer minutes, `aware < now - PAST_MARGIN` is
`t + PAST_MARGIN < now`. -/
def appointmentClean (appts : List Appointment) (now : Nat) (self : Appointment) :
    Except SchedError Unit :=
  match self.scheduled_time with
  | none => .ok ()
  | some t =>
      if t + PAST_MARGIN < now then .error .pastTime
      else if cleanClash appts self.pk self.doctor t then .error .slotTaken
      else .ok ()

/-- Violation of `uq_doctor_time_not_cancelled`: two non-cancelled rows of the
same doctor sharing a non-null `scheduled_time`. -/
def timeConflict (a b : Appointment) : Bool :=
  a.doctor == b.doctor && a.scheduled_time.isSome && a.scheduled_time == b.scheduled_time
    && isActive a && isActive b

/-- Violation of `uq_doctor_day_queue_active`: two non-cancelled rows of the
same doctor sharing a non-null `scheduled_day` and non-null `queue_number`. -/
def queueConflict (a b : Appointment) : Bool :=
  a.doctor == b.doctor && a.scheduled_day.isSome && a.scheduled_day == b.scheduled_day
    && a.queue_number.isSome && a.queue_number == b.queue_number
    && isActive a && isActive b

/-- Two rows are compatible when they violate neither partial unique constraint. -/
def rowsCompatible (a b : Appointment) : Bool :=
  !timeConflict a b && !queueConflict a b

/-- The storage layer accepts a table iff every pair of rows is compatible
with both constraints of `Appointment.Meta.constraints`. -/
def dbConstraintsOk : List Appointment → Bool
  | [] => true
  | a :: rest => rest.all (rowsCompatible a) && dbConstraintsOk rest

/-- The queue-allocation scan of `Appointment.save`:
`filter(doctor_id=..., scheduled_day=...).exclude(status=CANCELLED)`. -/
def activeForDay (appts : List Appointment) (doctor day : Nat) : List Appointment :=
  appts.filter fun a => a.doctor == doctor && a.scheduled_day == some day && isActive a

/-- `aggregate(mx=Max("queue_number"))["mx"] or 0`: SQL `Max` ignores NULLs,
and a NULL (no rows / all NULL) or zero result becomes 0. -/
def maxQueue (l : List Appointment) : Nat :=
  l.foldr (fun a m => max (a.queue_number.getD 0) m) 0

/-- `last + 1`, the queue number assigned to a new appointment for
(doctor, day). -/
def nextQueueNumber (appts : List Appointment) (doctor day : Nat) : Nat :=
  maxQueue (activeForDay appts doctor day) + 1

/-- Field values for a create/edit of an appointment (the model fields a
caller controls; `AppointmentForm` exposes exactly these). -/
structure ApptInput where
  patient : Nat
  doctor : Nat
  scheduled_time : Option Nat
  iqd_amount : Nat
  notes : String
  status : AppointmentStatus
deriving DecidableEq, Repr

/-- The row inserted by `Appointment.save` for a new appointment:
`scheduled_day` derived from the normalized time, and — when a
`scheduled_time` is present — `queue_number = last + 1` from the doctor-locked
scan of active appointments for (doctor, scheduled_day). -/
def newApptRow (s : ClinicState) (inp : ApptInput) : Appointment :=
  { pk := s.nextPk
    patient := inp.patient
    doctor := inp.doctor
    scheduled_time := inp.scheduled_time
    scheduled_day := inp.scheduled_time.map dayOf
    queue_number :=
      match inp.scheduled_time.map dayOf with
      | some d => some (nextQueueNumber s.appointments inp.doctor d)
      | none => none
    iqd_amount := inp.iqd_amount
    notes := inp.notes
    status := inp.status }

/-- `Appointment.save` on a new row (`appointments/models.py` lines 154-199):
normalize the time, derive `scheduled_day`, compute the queue number inside
the doctor-locked transaction, run `full_clean`, then insert subject to the
storage constraints. -/
def createAppointment (s : ClinicState) (now : Nat) (inp : ApptInput) :
    Except SchedError (ClinicState × Appointment) :=
  match appointmentClean s.appointments now (newApptRow s inp) with
  | .error e => .error e
  | .ok _ =>
      if dbConstraintsOk (s.appointments ++ [newApptRow s inp]) then
        .ok ({ s with
               appointments := s.appointments ++ [newApptRow s inp]
               nextPk := s.nextPk + 1 }, newApptRow s inp)
      else .error .uniqueViolation

/-- The in-place edit of an existing row by `Appointment.save` on update:
every caller-controlled field is overwritten, `scheduled_day` is re-derived,
and `queue_number` is kept ("Updates: do not re-number queues"). -/
def editedRow (old : Appointment) (inp : ApptInput) : Appointment :=
  { old with
    patient := inp.patient
    doctor := inp.doctor
    scheduled_time := inp.scheduled_time
    scheduled_day := inp.scheduled_time.map dayOf
    iqd_amount := inp.iqd_amount
    notes := inp.notes
    status := inp.status }

/-- Writing one row back to the table (an SQL UPDATE keyed by primary key). -/
def replaceRow (appts : List Appointment) (pk : Nat) (newA : Appointment) :
    List Appointment :=
  appts.map fun a => if a.pk == pk then newA else a

/-- `Appointment.save` on an existing row (the `not creating` branch):
re-normalize the time, re-derive `scheduled_day`, keep `queue_number`
untouched, run `full_clean`, then write subject to the storage constraints. -/
def updateAppointment (s : ClinicState) (now pk : Nat) (inp : ApptInput) :
    Except SchedError ClinicState :=
  match s.appointments.find? (fun a => a.pk == pk) with
  | none => .error .notFound
  | some old =>
      match appointmentClean s.appointments now (editedRow old inp) with
      | .error e => .error e
      | .ok _ =>
          if dbConstraintsOk (replaceRow s.appointments pk (editedRow old inp)) then
            .ok { s with appointments := replaceRow s.appointments pk (editedRow old inp) }
          else .error .uniqueViolation

/-- The audit line appended on cancellation:
`f"[Cancelled {stamp} by {user_display}] {reason}"`. -/
def cancelNoteLine (stamp user reason : String) : String :=
  "[Cancelled " ++ stamp ++ " by " ++ user ++ "] " ++ reason

/-- The row update performed by `cancel_appointment`'s
`Appointment.objects.filter(pk=...).update(**update_kwargs)`: set status to
CANCELLED and, when a reason was given, append the audit line to `notes`. -/
def cancelTransform (pk : Nat) (stamp user reason : String) (a : Appointment) :
    Appointment :=
  if a.pk == pk then
    { a with
      status := .cancelled
      notes := if reason != "" then
                 (a.notes ++ "\n" ++ cancelNoteLine stamp user reason).trim
               else a.notes }
  else a

/-- `cancel_appointment` (`appointments/views.py` lines 260-286): refuse when
the appointment is COMPLETED; otherwise soft-cancel in place via a direct
UPDATE (no `full_clean`, row kept). -/
def cancelAppointment (s : ClinicState) (pk : Nat) (stamp user reason : String) :
    Except SchedError ClinicState :=
  match s.appointments.find? (fun a => a.pk == pk) with
  | none => .error .notFound
  | some appt =>
      if appt.status == .completed then .error .cannotCancelCompleted
      else
        .ok { s with appointments := s.appointments.map (cancelTransform pk stamp user reason) }

/-- `confirm_appointment` (`appointments/views.py` lines 565-578): refuse when
CANCELLED; otherwise force status to PENDING and save, which re-runs
`full_clean` and the storage constraints. -/
def confirmAppointment (s : ClinicState) (now pk : Nat) :
    Except SchedError ClinicState :=
  match s.appointments.find? (fun a => a.pk == pk) with
  | none => .error .notFound
  | some appt =>
      if appt.status == AppointmentStatus.cancelled then .error .cannotConfirmCancelled
      else
        match appointmentClean s.appointments now { appt with status := .pending } with
        | .error e => .error e
        | .ok _ =>
            if dbConstraintsOk
                (replaceRow s.appointments pk { appt with status := .pending }) then
              .ok { s with
                    appointments := replaceRow s.appointments pk { appt with status := .pending } }
            else .error .uniqueViolation

/-- The call-next base queryset: PENDING appointments of the doctor whose
`scheduled_time` falls on today's local date, ordered by `scheduled_time`
(`filter(doctor_id=..., status=PENDING, scheduled_time__date=today)`). -/
def pendingToday (appts : List Appointment) (doctor today : Nat) : List Appointment :=
  appts.filter fun a =>
    a.doctor == doctor && a.status == AppointmentStatus.pending
      && a.scheduled_time.map dayOf == some today

/-- `.order_by("scheduled_time").first()`: the earliest row by scheduled time. -/
def earliestBy : List Appointment → Option Appointment
  | [] => none
  | a :: rest =>
      match earliestBy rest with
      | none => some a
      | some b =>
          if (b.scheduled_time.getD 0) < (a.scheduled_time.getD 0) then some b else some a

/-- `call_next_api` (`appointments/views.py` lines 782-835): prefer an
explicitly given appointment when it belongs to the doctor, is still PENDING
and is not scheduled on a different day (a NULL `scheduled_time` passes that
test, faithful to `nxt.scheduled_time and nxt.scheduled_time.date() != today`);
otherwise take the earliest PENDING appointment of today. When none remains,
report "No pending appointments" before touching any row; otherwise mark the
selection COMPLETED through `save(update_fields=["status"])`, which re-runs
`full_clean` and the storage constraints. -/
def callNextSelection (s : ClinicState) (today doctor : Nat) (apptId : Option Nat) :
    Option Appointment :=
  match apptId with
  | none => earliestBy (pendingToday s.appointments doctor today)
  | some i =>
      match s.appointments.find? (fun a => a.pk == i && a.doctor == doctor) with
      | none => earliestBy (pendingToday s.appointments doctor today)
      | some a =>
          if a.status == AppointmentStatus.pending
              && (match a.scheduled_time with
                  | some t => dayOf t == today
                  | none => true) then some a
          else earliestBy (pendingToday s.appointments doctor today)

/-- The mutation step of `call_next_api`: mark the selection COMPLETED through
`save(update_fields=["status"])`, which re-runs `full_clean` and the storage
constraints; report "No pending appointments" (404) before touching any row
when nothing was selected. -/
def callNext (s : ClinicState) (now doctor : Nat) (apptId : Option Nat) :
    Except SchedError (ClinicState × Appointment) :=
  match callNextSelection s (dayOf now) doctor apptId with
  | none => .error .queueEmpty
  | some a =>
      match appointmentClean s.appointments now { a with status := .completed } with
      | .error e => .error e
      | .ok _ =>
          if dbConstraintsOk
              (replaceRow s.appointments a.pk { a with status := .completed }) then
            .ok ({ s with
                   appointments := replaceRow s.appointments a.pk { a with status := .completed } },
                 { a with status := .completed })
          else .error .uniqueViolation

/-- The active-appointment occupancy query shared by
`PatientBookingRequest.clean`: an active appointment of the doctor at exactly
the requested instant. -/
def activeClash (appts : List Appointment) (doctor t : Nat) : Bool :=
  appts.any fun a => a.doctor == doctor && a.scheduled_time == some t && isActive a

/-- `PatientBookingRequest.clean` (`appointments/models.py` lines 234-257):
both checks write to the same `errors["scheduled_time"]` key, so when the
instant is both past and occupied the clash message overwrites the past-time
one — the reported failure is the clash. -/
def bookingRequestClean (appts : List Appointment) (now doctor t : Nat) :
    Except SchedError Unit :=
  if activeClash appts doctor t then .error .slotTaken
  else if t + PAST_MARGIN < now then .error .pastTime
  else .ok ()

/-- Field values of a public booking submission. -/
structure BookingInput where
  full_name : String
  contact_info : String
  doctor : Nat
  scheduled_time : Nat
deriving DecidableEq, Repr

/-- `PatientBookingRequest.save` (`appointments/models.py` lines 259-276):
normalize, `full_clean`, persist as PENDING, then fire a notification on
create (best-effort, after persistence). A failed `full_clean` persists
nothing. -/
def submitBookingRequest (s : ClinicState) (now : Nat) (inp : BookingInput) :
    Except SchedError ClinicState :=
  match bookingRequestClean s.appointments now inp.doctor inp.scheduled_time with
  | .error e => .error e
  | .ok _ =>
      let br : BookingRequest :=
        { pk := s.nextPk
          full_name := inp.full_name
          contact_info := inp.contact_info
          doctor := inp.doctor
          scheduled_time := inp.scheduled_time
          status := .pending }
      .ok { s with
            bookingRequests := s.bookingRequests ++ [br]
            nextPk := s.nextPk + 1
            notifications := s.notifications + 1 }

/-- The one-minute gap check of `AppointmentForm.clean` (`appointments/forms.py`
lines 138-161): any appointment of the doctor — regardless of status — with a
`scheduled_time` inside the inclusive window [t - 1 min, t + 1 min], excluding
the instance being edited. Over integer minutes `t - 1 ≤ u` is `t ≤ u + 1`. -/
def staffFormGapConflict (appts : List Appointment) (doctor t : Nat)
    (excludePk : Option Nat) : Bool :=
  appts.any fun a =>
    a.doctor == doctor
      && (match a.scheduled_time with
          | some u => t ≤ u + 1 && u ≤ t + 1
          | none => false)
      && some a.pk != excludePk

/-- The exact-instant check of `PatientBookingForm.clean` (`appointments/forms.py`
lines 226-239): any appointment of the doctor at exactly the requested
instant, regardless of status. -/
def publicFormExactConflict (appts : List Appointment) (doctor t : Nat) : Bool :=
  appts.any fun a => a.doctor == doctor && a.scheduled_time == some t

/-- One externally triggered operation of the scheduling core, each running as
one atomic unit of work. -/
inductive Step : ClinicState → ClinicState → Prop
  | create (s : ClinicState) (now : Nat) (inp : ApptInput) (s' : ClinicState)
      (a : Appointment) (h : createAppointment s now inp = .ok (s', a)) : Step s s'
  | update (s : ClinicState) (now pk : Nat) (inp : ApptInput) (s' : ClinicState)
      (h : updateAppointment s now pk inp = .ok s') : Step s s'
  | cancel (s : ClinicState) (pk : Nat) (stamp user reason : String) (s' : ClinicState)
      (h : cancelAppointment s pk stamp user reason = .ok s') : Step s s'
  | confirm (s : ClinicState) (now pk : Nat) (s' : ClinicState)
      (h : confirmAppointment s now pk = .ok s') : Step s s'
  | next (s : ClinicState) (now doctor : Nat) (apptId : Option Nat)
      (s' : ClinicState) (a : Appointment)
      (h : callNext s now doctor apptId = .ok (s', a)) : Step s s'
  | submit (s : ClinicState) (now : Nat) (inp : BookingInput) (s' : ClinicState)
      (h : submitBookingRequest s now inp = .ok s') : Step s s'

/-- The empty store the system starts from. -/
def initialState : ClinicState :=
  { appointments := []
    bookingRequests := []
    nextPk := 1
    notifications := 0 }

/-- States reachable from the empty store by the program's operations. -/
def Reachable (s : ClinicState) : Prop :=
  Relation.ReflTransGen Step initialState s

/-! ## Basic lemmas about the storage constraints and the queue scan -/

/-- The storage acceptance predicate is pairwise compatibility of rows. -/
theorem dbConstraintsOk_iff_pairwise {l : List Appointment} :
    dbConstraintsOk l = true ↔ l.Pairwise (fun a b => rowsCompatible a b = true) := by
  induction l with
  | nil => simp [dbConstraintsOk]
  | cons a rest ih =>
      simp [dbConstraintsOk, List.pairwise_cons, ih, List.all_eq_true, and_comm]

/-- A list that is pairwise `R` has at most one element satisfying a predicate
incompatible with `R`. -/
theorem length_filter_le_one_of_pairwise {α : Type} {l : List α} {p : α → Bool}
    {R : α → α → Prop} (hp : l.Pairwise R)
    (hpr : ∀ a b, p a = true → p b = true → R a b → False) :
    (l.filter p).length ≤ 1 := by
  induction l with
  | nil => simp
  | cons a rest ih =>
      rcases List.pairwise_cons.mp hp with ⟨ha, hrest⟩
      by_cases hpa : p a = true
      · have hnil : rest.filter p = [] := by
          rw [List.filter_eq_nil_iff]
          intro b hb hpb
          exact hpr a b hpa hpb (ha b hb)
        simp [List.filter_cons, hpa, hnil]
      · simp only [List.filter_cons, hpa, if_neg]
        simpa [hpa] using ih hrest

/-- Every member's queue number is bounded by the scanned maximum. -/
theorem maxQueue_ge_mem {l : List Appointment} {a : Appointment} (h : a ∈ l) :
    a.queue_number.getD 0 ≤ maxQueue l := by
  induction l with
  | nil => cases h
  | cons b rest ih =>
      rcases List.mem_cons.mp h with rfl | hmem
      · exact le_max_left _ _
      · exact le_trans (ih hmem) (le_max_right _ _)

/-- A row that is not active violates neither constraint against any row. -/
theorem rowsCompatible_of_inactive_left {a b : Appointment}
    (h : isActive a = false) : rowsCompatible a b = true := by
  simp [rowsCompatible, timeConflict, queueConflict, h]

/-- A row that is not active violates neither constraint against any row. -/
theorem rowsCompatible_of_inactive_right {a b : Appointment}
    (h : isActive b = false) : rowsCompatible a b = true := by
  simp [rowsCompatible, timeConflict, queueConflict, h]

/-- The cancellation row update never introduces a constraint violation. -/
theorem rowsCompatible_cancelTransform {pk : Nat} {stamp user reason : String}
    {a b : Appointment} (h : rowsCompatible a b = true) :
    rowsCompatible (cancelTransform pk stamp user reason a)
      (cancelTransform pk stamp user reason b) = true := by
  unfold cancelTransform
  by_cases ha : (a.pk == pk) = true
  · simp only [ha, if_pos]
    exact rowsCompatible_of_inactive_left (by simp [isActive])
  · by_cases hb : (b.pk == pk) = true
    · simp only [ha, hb, if_pos, if_neg, Bool.false_eq_true, not_false_iff]
      exact rowsCompatible_of_inactive_right (by simp [isActive])
    · simpa [ha, hb] using h

/-- Mapping a row transformation that preserves pairwise compatibility
preserves storage acceptance. -/
theorem dbConstraintsOk_map {l : List Appointment} {f : Appointment → Appointment}
    (hf : ∀ a b : Appointment, rowsCompatible a b = true →
      rowsCompatible (f a) (f b) = true)
    (h : dbConstraintsOk l = true) : dbConstraintsOk (l.map f) = true := by
  rw [dbConstraintsOk_iff_pairwise] at h ⊢
  exact (List.pairwise_map).mpr (h.imp fun hab => hf _ _ hab)

/-- Appending one row is accepted iff the table was accepted and the new row
is compatible with every existing one. -/
theorem dbConstraintsOk_append_singleton {l : List Appointment} {b : Appointment} :
    dbConstraintsOk (l ++ [b]) = true ↔
      dbConstraintsOk l = true ∧ ∀ a ∈ l, rowsCompatible a b = true := by
  rw [dbConstraintsOk_iff_pairwise, dbConstraintsOk_iff_pairwise, List.pairwise_append]
  constructor
  · rintro ⟨h1, _, h3⟩
    exact ⟨h1, fun a ha => h3 a ha b (List.mem_singleton_self b)⟩
  · rintro ⟨h1, h2⟩
    refine ⟨h1, List.pairwise_singleton _ _, ?_⟩
    intro a ha x hx
    rw [List.mem_singleton] at hx
    subst hx
    exact h2 a ha

/-- `earliestBy` returns a member of its input. -/
theorem earliestBy_mem {l : List Appointment} {a : Appointment}
    (h : earliestBy l = some a) : a ∈ l := by
  induction l generalizing a with
  | nil => simp [earliestBy] at h
  | cons b rest ih =>
      unfold earliestBy at h
      cases hrest : earliestBy rest with
      | none =>
          rw [hrest] at h
          cases h
          exact List.mem_cons_self _ _
      | some c =>
          simp only [hrest] at h
          by_cases hlt : (c.scheduled_time.getD 0) < (b.scheduled_time.getD 0)
          · simp only [if_pos hlt] at h
            cases h
            exact List.mem_cons_of_mem _ (ih hrest)
          · simp only [if_neg hlt] at h
            cases h
            exact List.mem_cons_self _ _

/-! ## Shape of successful operations -/

/-- A successful create appends exactly the computed row, passed `full_clean`
and left the table accepted by the storage constraints. -/
theorem createAppointment_ok {s : ClinicState} {now : Nat} {inp : ApptInput}
    {s' : ClinicState} {b : Appointment}
    (h : createAppointment s now inp = .ok (s', b)) :
    b = newApptRow s inp
    ∧ s'.appointments = s.appointments ++ [newApptRow s inp]
    ∧ s'.nextPk = s.nextPk + 1
    ∧ s'.bookingRequests = s.bookingRequests
    ∧ dbConstraintsOk s'.appointments = true := by
  unfold createAppointment at h
  cases hc : appointmentClean s.appointments now (newApptRow s inp) with
  | error e => rw [hc] at h; cases h
  | ok u =>
      rw [hc] at h
      by_cases hdb : dbConstraintsOk (s.appointments ++ [newApptRow s inp]) = true
      · rw [if_pos hdb] at h
        cases h
        exact ⟨rfl, rfl, rfl, rfl, hdb⟩
      · rw [if_neg (by simpa using hdb)] at h
        cases h

/-- A successful update rewrote the found row in place, passed `full_clean`
and left the table accepted by the storage constraints. -/
theorem updateAppointment_ok {s : ClinicState} {now pk : Nat} {inp : ApptInput}
    {s' : ClinicState} (h : updateAppointment s now pk inp = .ok s') :
    ∃ old, s.appointments.find? (fun a => a.pk == pk) = some old
    ∧ s'.appointments = replaceRow s.appointments pk (editedRow old inp)
    ∧ s'.bookingRequests = s.bookingRequests
    ∧ s'.nextPk = s.nextPk
    ∧ dbConstraintsOk s'.appointments = true := by
  unfold updateAppointment at h
  cases hf : s.appointments.find? (fun a => a.pk == pk) with
  | none => rw [hf] at h; cases h
  | some old =>
      simp only [hf] at h
      refine ⟨old, rfl, ?_⟩
      cases hc : appointmentClean s.appointments now (editedRow old inp) with
      | error e => rw [hc] at h; cases h
      | ok u =>
          rw [hc] at h
          by_cases hdb : dbConstraintsOk (replaceRow s.appointments pk (editedRow old inp)) = true
          · rw [if_pos hdb] at h
            cases h
            exact ⟨rfl, rfl, rfl, hdb⟩
          · rw [if_neg (by simpa using hdb)] at h
            cases h

/-- A successful cancel soft-updated the table in place via `cancelTransform`
on a found row that was not COMPLETED. -/
theorem cancelAppointment_ok {s : ClinicState} {pk : Nat} {stamp user reason : String}
    {s' : ClinicState} (h : cancelAppointment s pk stamp user reason = .ok s') :
    ∃ a, s.appointments.find? (fun x => x.pk == pk) = some a
    ∧ a.status ≠ .completed
    ∧ s'.appointments = s.appointments.map (cancelTransform pk stamp user reason)
    ∧ s'.bookingRequests = s.bookingRequests
    ∧ s'.nextPk = s.nextPk := by
  unfold cancelAppointment at h
  cases hf : s.appointments.find? (fun x => x.pk == pk) with
  | none => rw [hf] at h; cases h
  | some a =>
      simp only [hf] at h
      by_cases hcomp : (a.status == AppointmentStatus.completed) = true
      · rw [if_pos hcomp] at h; cases h
      · rw [if_neg (by simpa using hcomp)] at h
        cases h
        exact ⟨a, rfl, by simpa using hcomp, rfl, rfl, rfl⟩

/-- A successful confirm forced a found, non-CANCELLED row to PENDING in
place, passed `full_clean` and left the table accepted. -/
theorem confirmAppointment_ok {s : ClinicState} {now pk : Nat}
    {s' : ClinicState} (h : confirmAppointment s now pk = .ok s') :
    ∃ a, s.appointments.find? (fun x => x.pk == pk) = some a
    ∧ a.status ≠ .cancelled
    ∧ s'.appointments = replaceRow s.appointments pk { a with status := .pending }
    ∧ s'.bookingRequests = s.bookingRequests
    ∧ s'.nextPk = s.nextPk
    ∧ dbConstraintsOk s'.appointments = true := by
  unfold confirmAppointment at h
  cases hf : s.appointments.find? (fun x => x.pk == pk) with
  | none => rw [hf] at h; cases h
  | some a =>
      simp only [hf] at h
      by_cases hcanc : (a.status == AppointmentStatus.cancelled) = true
      · rw [if_pos hcanc] at h; cases h
      · rw [if_neg (by simpa using hcanc)] at h
        refine ⟨a, rfl, by simpa using hcanc, ?_⟩
        cases hc : appointmentClean s.appointments now { a with status := .pending } with
        | error e => rw [hc] at h; cases h
        | ok u =>
            rw [hc] at h
            by_cases hdb : dbConstraintsOk
                (replaceRow s.appointments pk { a with status := .pending }) = true
            · rw [if_pos hdb] at h
              cases h
              exact ⟨rfl, rfl, rfl, hdb⟩
            · rw [if_neg (by simpa using hdb)] at h
              cases h

/-- The call-next selection only ever picks a PENDING appointment of the
doctor, taken from the stored table. -/
theorem callNextSelection_some {s : ClinicState} {today doctor : Nat}
    {apptId : Option Nat} {a : Appointment}
    (h : callNextSelection s today doctor apptId = some a) :
    a ∈ s.appointments ∧ a.status = .pending := by
  have base : ∀ b : Appointment,
      earliestBy (pendingToday s.appointments doctor today) = some b →
      b ∈ s.appointments ∧ b.status = .pending := by
    intro b hb
    have hmem := earliestBy_mem hb
    unfold pendingToday at hmem
    have := List.mem_filter.mp hmem
    refine ⟨this.1, ?_⟩
    have hcond := this.2
    simp only [Bool.and_eq_true, beq_iff_eq] at hcond
    exact hcond.1.2
  cases apptId with
  | none =>
      simp only [callNextSelection] at h
      exact base a h
  | some i =>
      cases hf : s.appointments.find? (fun x => x.pk == i && x.doctor == doctor) with
      | none =>
          simp only [callNextSelection, hf] at h
          exact base a h
      | some c =>
          simp only [callNextSelection, hf] at h
          by_cases hcnd : (c.status == AppointmentStatus.pending
              && (match c.scheduled_time with
                  | some t => dayOf t == today
                  | none => true)) = true
          · rw [if_pos hcnd] at h
            cases h
            refine ⟨List.mem_of_find?_eq_some hf, ?_⟩
            simp only [Bool.and_eq_true, beq_iff_eq] at hcnd
            exact hcnd.1
          · rw [if_neg (by simpa using hcnd)] at h
            exact base a h

/-- A successful call-next completed a stored PENDING appointment in place,
passed `full_clean` and left the table accepted. -/
theorem callNext_ok {s : ClinicState} {now doctor : Nat} {apptId : Option Nat}
    {s' : ClinicState} {b : Appointment}
    (h : callNext s now doctor apptId = .ok (s', b)) :
    ∃ a, callNextSelection s (dayOf now) doctor apptId = some a
    ∧ a ∈ s.appointments ∧ a.status = .pending
    ∧ b = { a with status := .completed }
    ∧ s'.appointments = replaceRow s.appointments a.pk { a with status := .completed }
    ∧ s'.bookingRequests = s.bookingRequests
    ∧ s'.nextPk = s.nextPk
    ∧ dbConstraintsOk s'.appointments = true := by
  unfold callNext at h
  cases hsel : callNextSelection s (dayOf now) doctor apptId with
  | none => rw [hsel] at h; cases h
  | some a =>
      simp only [hsel] at h
      obtain ⟨hmem, hpend⟩ := callNextSelection_some hsel
      refine ⟨a, rfl, hmem, hpend, ?_⟩
      cases hc : appointmentClean s.appointments now { a with status := .completed } with
      | error e => rw [hc] at h; cases h
      | ok u =>
          rw [hc] at h
          by_cases hdb : dbConstraintsOk
              (replaceRow s.appointments a.pk { a with status := .completed }) = true
          · rw [if_pos hdb] at h
            cases h
            exact ⟨rfl, rfl, rfl, rfl, hdb⟩
          · rw [if_neg (by simpa using hdb)] at h
            cases h

/-- A successful public booking submission leaves the appointments table
untouched and appends one PENDING request. -/
theorem submitBookingRequest_ok {s : ClinicState} {now : Nat} {inp : BookingInput}
    {s' : ClinicState} (h : submitBookingRequest s now inp = .ok s') :
    s'.appointments = s.appointments := by
  unfold submitBookingRequest at h
  cases hc : bookingRequestClean s.appointments now inp.doctor inp.scheduled_time with
  | error e => rw [hc] at h; cases h
  | ok u =>
      rw [hc] at h
      cases h
      rfl

/-! ## The storage constraints are an invariant of every operation -/

/-- Every operation preserves acceptance of the appointments table by the
storage constraints: the writes that go through `save` re-check them, and a
soft cancel only removes rows from both constraints' scope. -/
theorem step_preserves_constraints {s s' : ClinicState} (hstep : Step s s')
    (h : dbConstraintsOk s.appointments = true) :
    dbConstraintsOk s'.appointments = true := by
  cases hstep with
  | create _ _ _ _ hop => exact (createAppointment_ok hop).2.2.2.2
  | update _ _ _ _ hop =>
      obtain ⟨old, -, -, -, -, hdb⟩ := updateAppointment_ok hop
      exact hdb
  | cancel _ _ _ _ _ hop =>
      obtain ⟨a, -, -, happts, -, -⟩ := cancelAppointment_ok hop
      rw [happts]
      exact dbConstraintsOk_map (fun a b hab => rowsCompatible_cancelTransform hab) h
  | confirm _ _ _ hop =>
      obtain ⟨a, -, -, -, -, -, hdb⟩ := confirmAppointment_ok hop
      exact hdb
  | next _ _ _ _ _ hop =>
      obtain ⟨c, -, -, -, -, -, -, -, hdb⟩ := callNext_ok hop
      exact hdb
  | submit _ _ _ hop =>
      rw [submitBookingRequest_ok hop]
      exact h

/-- Every reachable state's appointments table is accepted by the storage
constraints. -/
theorem reachable_constraints {s : ClinicState} (h : Reachable s) :
    dbConstraintsOk s.appointments = true := by
  induction h with
  | refl => rfl
  | tail hsteps hstep ih => exact step_preserves_constraints hstep ih

/-- Read off the queue constraint: a constraint-accepted table holds at most
one active row per (doctor, day, queue number). -/
theorem constraints_queue_unique {l : List Appointment}
    (h : dbConstraintsOk l = true) (d day n : Nat) :
    (l.filter (fun a => a.doctor == d && a.scheduled_day == some day
        && isActive a && a.queue_number == some n)).length ≤ 1 := by
  apply length_filter_le_one_of_pairwise (dbConstraintsOk_iff_pairwise.mp h)
  intro a b hpa hpb hR
  simp only [Bool.and_eq_true, beq_iff_eq] at hpa hpb
  obtain ⟨⟨⟨had, haday⟩, haact⟩, han⟩ := hpa
  obtain ⟨⟨⟨hbd, hbday⟩, hbact⟩, hbn⟩ := hpb
  have hq : queueConflict a b = true := by
    simp [queueConflict, had, hbd, haday, hbday, han, hbn, haact, hbact]
  simp [rowsCompatible, hq] at hR

/-- A freshly computed queue number strictly exceeds the queue number of
every active stored appointment of the same (doctor, day). -/
theorem nextQueueNumber_gt {l : List Appointment} {a : Appointment} {d day : Nat}
    (hmem : a ∈ l) (hact : isActive a = true) (hd : a.doctor = d)
    (hday : a.scheduled_day = some day) :
    a.queue_number.getD 0 < nextQueueNumber l d day := by
  have hin : a ∈ activeForDay l d day := by
    unfold activeForDay
    exact List.mem_filter.mpr ⟨hmem, by simp [hd, hday, hact]⟩
  exact Nat.lt_succ_of_le (maxQueue_ge_mem hin)

/-! ## Shared concrete scenario (doctor 1, local day 0, `now` = 0) -/

/-- A staff create request for doctor `d` at instant `t` with the form's
defaults. -/
def apptInputAt (d t : Nat) : ApptInput :=
  { patient := 1
    doctor := d
    scheduled_time := some t
    iqd_amount := 0
    notes := ""
    status := .pending }

/-- First booking of the demo day: doctor 1 at minute 10, ticket 1. -/
def demoAppt1 : Appointment :=
  { pk := 1
    patient := 1
    doctor := 1
    scheduled_time := some 10
    scheduled_day := some 0
    queue_number := some 1
    iqd_amount := 0
    notes := ""
    status := .pending }

/-- Second booking of the demo day: doctor 1 at minute 20, ticket 2. -/
def demoAppt2 : Appointment :=
  { demoAppt1 with pk := 2, scheduled_time := some 20, queue_number := some 2 }

/-- `demoAppt2` after a reasonless soft cancel. -/
def demoAppt2c : Appointment :=
  { demoAppt2 with status := .cancelled }

/-- Third booking, made after `demoAppt2` was cancelled: doctor 1 at minute
30 — it receives ticket 2 again. -/
def demoAppt3 : Appointment :=
  { demoAppt1 with pk := 3, scheduled_time := some 30, queue_number := some 2 }

/-- Store after booking `demoAppt1`. -/
def demoState1 : ClinicState :=
  { appointments := [demoAppt1]
    bookingRequests := []
    nextPk := 2
    notifications := 0 }

/-- Store after additionally booking `demoAppt2`. -/
def demoState2 : ClinicState :=
  { demoState1 with appointments := [demoAppt1, demoAppt2], nextPk := 3 }

/-- Store after cancelling `demoAppt2`. -/
def demoState3 : ClinicState :=
  { demoState2 with appointments := [demoAppt1, demoAppt2c] }

/-- Store after additionally booking `demoAppt3`. -/
def demoState4 : ClinicState :=
  { demoState3 with appointments := [demoAppt1, demoAppt2c, demoAppt3], nextPk := 4 }

/-! ## C3 -/

/-- **C3.** On creating an appointment with a scheduled time, the assigned
queue number equals the maximum queue number among the existing ACTIVE
(non-CANCELLED) appointments for the same (doctor, local scheduled day) plus
one — hence 1 when no active appointment exists for that partition — and the
scan only sees the partition of that doctor: appointments of other doctors
never affect the assigned number. -/
theorem C3_queue_assignment
    (s : ClinicState) (now : Nat) (inp : ApptInput) (t : Nat)
    (s' : ClinicState) (b : Appointment)
    (ht : inp.scheduled_time = some t)
    (h : createAppointment s now inp = .ok (s', b)) :
    b.queue_number = some (maxQueue (activeForDay s.appointments inp.doctor (dayOf t)) + 1)
    ∧ (activeForDay s.appointments inp.doctor (dayOf t) = [] → b.queue_number = some 1)
    ∧ ∀ extra : List Appointment, (∀ x ∈ extra, x.doctor ≠ inp.doctor) →
        nextQueueNumber (s.appointments ++ extra) inp.doctor (dayOf t)
          = nextQueueNumber s.appointments inp.doctor (dayOf t) := by
  obtain ⟨hb, -, -, -, -⟩ := createAppointment_ok h
  refine ⟨?_, ?_, ?_⟩
  · rw [hb]
    simp [newApptRow, ht, nextQueueNumber]
  · intro hempty
    rw [hb]
    simp [newApptRow, ht, nextQueueNumber, hempty, maxQueue]
  · intro extra hex
    unfold nextQueueNumber activeForDay
    rw [List.filter_append]
    have hnil : extra.filter (fun a =>
        a.doctor == inp.doctor && a.scheduled_day == some (dayOf t) && isActive a) = [] := by
      rw [List.filter_eq_nil_iff]
      intro x hx
      simp only [Bool.and_eq_true, beq_iff_eq]
      rintro ⟨⟨hd, -⟩, -⟩
      exact hex x hx hd
    rw [hnil, List.append_nil]

/-- Witness for C3 at a concrete input: the first booking of an empty store
receives ticket `max + 1 = 1`. -/
theorem C3_queue_assignment_witness :
    demoAppt1.queue_number
      = some (maxQueue (activeForDay initialState.appointments 1 (dayOf 10)) + 1) :=
  (C3_queue_assignment initialState 0 (apptInputAt 1 10) 10 demoState1 demoAppt1
    rfl rfl).1

/-! ## C1 -/

/-- **C1 counterexample.** The claim "queue numbers are never reused within a
(doctor, day) partition even after cancellation" is false: booking tickets 1
and 2, cancelling ticket 2, then booking again reassigns queue number 2 —
`save` computes the next number as max over ACTIVE rows only, so a cancelled
row's number is handed out again. -/
theorem C1_counterexample :
    createAppointment initialState 0 (apptInputAt 1 10) = .ok (demoState1, demoAppt1)
    ∧ createAppointment demoState1 0 (apptInputAt 1 20) = .ok (demoState2, demoAppt2)
    ∧ cancelAppointment demoState2 2 "2025-01-10 09:00" "sec" "" = .ok demoState3
    ∧ demoAppt2.queue_number = some 2
    ∧ demoAppt2c.status = .cancelled
    ∧ createAppointment demoState3 0 (apptInputAt 1 30) = .ok (demoState4, demoAppt3)
    ∧ demoAppt3.queue_number = demoAppt2.queue_number
    ∧ demoAppt3.doctor = demoAppt2.doctor
    ∧ demoAppt3.scheduled_day = demoAppt2.scheduled_day
    ∧ demoAppt3.status = .pending :=
  ⟨rfl, rfl, rfl, rfl, rfl, rfl, rfl, rfl, rfl, rfl⟩

/-- **C1 amended.** Cancelling never renumbers any stored appointment, and a
subsequently created appointment can only reuse a CANCELLED appointment's
queue number: its fresh number strictly exceeds the queue number of every
ACTIVE appointment of the same (doctor, day) partition. -/
theorem C1_no_reuse_among_active
    (s : ClinicState) (now : Nat) (inp : ApptInput) (t pk : Nat)
    (stamp user reason : String) (s' : ClinicState) (b : Appointment)
    (ht : inp.scheduled_time = some t)
    (h : createAppointment s now inp = .ok (s', b)) :
    (∀ a ∈ s.appointments, isActive a = true → a.doctor = inp.doctor →
       a.scheduled_day = some (dayOf t) →
       a.queue_number.getD 0 < b.queue_number.getD 0)
    ∧ ∀ s2, cancelAppointment s pk stamp user reason = .ok s2 →
        s2.appointments.map (fun x => (x.pk, x.queue_number))
          = s.appointments.map (fun x => (x.pk, x.queue_number)) := by
  obtain ⟨hb, -, -, -, -⟩ := createAppointment_ok h
  constructor
  · intro a hmem hact hd hday
    have hbq : b.queue_number = some (nextQueueNumber s.appointments inp.doctor (dayOf t)) := by
      rw [hb]
      simp [newApptRow, ht]
    rw [hbq]
    exact nextQueueNumber_gt hmem hact hd hday
  · intro s2 hc
    obtain ⟨a, -, -, happts, -, -⟩ := cancelAppointment_ok hc
    rw [happts, List.map_map]
    apply List.map_congr_left
    intro x hx
    by_cases hpk : (x.pk == pk) = true
    · simp only [Function.comp_apply, cancelTransform, if_pos hpk]
    · simp only [Function.comp_apply, cancelTransform, if_neg hpk]

/-- Third booking made while tickets 1 and 2 are both still active: it gets
ticket 3. -/
def demoAppt25 : Appointment :=
  { demoAppt1 with pk := 3, scheduled_time := some 25, queue_number := some 3 }

/-- Store after booking `demoAppt25` on top of `demoState2`. -/
def demoState25 : ClinicState :=
  { demoState2 with appointments := [demoAppt1, demoAppt2, demoAppt25], nextPk := 4 }

/-- Witness for C1 amended at a concrete input: ticket 3 of the demo day
(assigned while tickets 1 and 2 are both active) exceeds active ticket 1,
and cancelling ticket 2 changes no (pk, queue number) pair. -/
theorem C1_no_reuse_among_active_witness :
    (demoAppt1.queue_number.getD 0 < demoAppt25.queue_number.getD 0)
    ∧ demoState3.appointments.map (fun x => (x.pk, x.queue_number))
        = demoState2.appointments.map (fun x => (x.pk, x.queue_number)) := by
  have h := C1_no_reuse_among_active demoState2 0 (apptInputAt 1 25) 25 2
    "2025-01-10 09:00" "sec" "" demoState25 demoAppt25 rfl rfl
  exact ⟨h.1 demoAppt1 (by decide) (by decide) (by decide) (by decide),
    h.2 demoState3 rfl⟩

/-- Rows with the same primary key in a duplicate-free table are the same
row. -/
theorem eq_of_mem_pk_nodup {l : List Appointment}
    (hnd : (l.map (fun x => x.pk)).Nodup) {x y : Appointment}
    (hx : x ∈ l) (hy : y ∈ l) (hpk : x.pk = y.pk) : x = y :=
  List.inj_on_of_nodup_map hnd hx hy hpk

/-- `demoAppt1` after a soft cancel. -/
def demoAppt1c : Appointment :=
  { demoAppt1 with status := .cancelled }

/-- Store after booking tickets 1 and 2 and then cancelling ticket 1: the
active queue for (doctor 1, day 0) is exactly ticket 2. -/
def demoState2c1 : ClinicState :=
  { demoState2 with appointments := [demoAppt1c, demoAppt2] }

/-- A store holding exactly one CANCELLED appointment. -/
def demoStateCancelled : ClinicState :=
  { demoState1 with appointments := [demoAppt1c] }

/-- `demoAppt1` marked COMPLETED. -/
def demoApptDone : Appointment :=
  { demoAppt1 with status := .completed }

/-- A store holding exactly one COMPLETED appointment. -/
def demoStateDone : ClinicState :=
  { demoState1 with appointments := [demoApptDone] }

/-- The store `demoState2c1` arises from the empty store by two creates and
one cancel. -/
theorem demoState2c1_reachable : Reachable demoState2c1 := by
  have h1 : Step initialState demoState1 :=
    Step.create initialState 0 (apptInputAt 1 10) demoState1 demoAppt1 rfl
  have h2 : Step demoState1 demoState2 :=
    Step.create demoState1 0 (apptInputAt 1 20) demoState2 demoAppt2 rfl
  have h3 : Step demoState2 demoState2c1 :=
    Step.cancel demoState2 1 "2025-01-10 10:00" "sec" "" demoState2c1 rfl
  exact Relation.ReflTransGen.tail
    (Relation.ReflTransGen.tail (Relation.ReflTransGen.single h1) h2) h3

/-! ## C4 -/

/-- **C4 counterexample.** The claim that the active queue numbers of a
(doctor, day) partition "start at 1" in every reachable state is false: after
booking tickets 1 and 2 and cancelling ticket 1, the reachable store's active
queue for (doctor 1, day 0) is nonempty and holds queue number 2 only. -/
theorem C4_counterexample :
    Reachable demoState2c1
    ∧ (activeForDay demoState2c1.appointments 1 0).map (fun a => a.queue_number)
        = [some 2]
    ∧ activeForDay demoState2c1.appointments 1 0 ≠ []
    ∧ (activeForDay demoState2c1.appointments 1 0).all
        (fun a => a.queue_number != some 1) = true :=
  ⟨demoState2c1_reachable, rfl, by decide, rfl⟩

/-- **C4 amended.** In every reachable state, the queue numbers of ACTIVE
appointments within one (doctor, day) partition are pairwise distinct (at
most one active row carries any given number); after cancellations the
remaining numbers need not start at 1. -/
theorem C4_active_queue_numbers_unique
    (s : ClinicState) (h : Reachable s) (d day n : Nat) :
    (s.appointments.filter (fun a => a.doctor == d && a.scheduled_day == some day
        && isActive a && a.queue_number == some n)).length ≤ 1 :=
  constraints_queue_unique (reachable_constraints h) d day n

/-- Witness for C4 amended at a concrete reachable store and partition. -/
theorem C4_active_queue_numbers_unique_witness :
    (demoState2c1.appointments.filter (fun a => a.doctor == 1 && a.scheduled_day == some 0
        && isActive a && a.queue_number == some 2)).length ≤ 1 :=
  C4_active_queue_numbers_unique demoState2c1 demoState2c1_reachable 1 0 2

/-! ## C2 -/

/-- **C2 counterexample.** COMPLETED is not terminal: `confirm_appointment`
on a COMPLETED appointment forces its status back to PENDING (the view sets
`status = PENDING` for every non-CANCELLED appointment), contradicting both
"COMPLETED is terminal" and "confirm is a no-op status-wise". -/
theorem C2_counterexample :
    demoApptDone.status = .completed
    ∧ confirmAppointment demoStateDone 10 1 = .ok demoState1
    ∧ demoState1.appointments.map (fun a => a.status) = [.pending] :=
  ⟨rfl, rfl, rfl⟩

/-- **C2 amended.** CANCELLED is terminal under confirm, cancel and
call-next: confirm fails with the cannot-confirm-cancelled error on a
CANCELLED appointment, and neither a cancel (of any appointment) nor a
call-next ever moves a CANCELLED appointment to another status. COMPLETED,
however, is not terminal under confirm. -/
theorem C2_cancelled_terminal
    (s : ClinicState) (now pk pk2 doctor : Nat) (apptId : Option Nat)
    (stamp user reason : String) (a : Appointment)
    (hfind : s.appointments.find? (fun x => x.pk == pk) = some a)
    (ha : a.status = .cancelled)
    (hnd : (s.appointments.map (fun x => x.pk)).Nodup) :
    confirmAppointment s now pk = .error .cannotConfirmCancelled
    ∧ (∀ s2, cancelAppointment s pk2 stamp user reason = .ok s2 →
        ∀ x ∈ s2.appointments, x.pk = pk → x.status = .cancelled)
    ∧ ∀ s2 b, callNext s now doctor apptId = .ok (s2, b) →
        ∀ x ∈ s2.appointments, x.pk = pk → x.status = .cancelled := by
  have hamem := List.mem_of_find?_eq_some hfind
  have hapk : a.pk = pk := by simpa using List.find?_some hfind
  refine ⟨?_, ?_, ?_⟩
  · simp [confirmAppointment, hfind, ha]
  · intro s2 hc x hx hxpk
    obtain ⟨c, -, -, happts, -, -⟩ := cancelAppointment_ok hc
    rw [happts] at hx
    obtain ⟨y, hy, hyx⟩ := List.mem_map.mp hx
    by_cases hypk : (y.pk == pk2) = true
    · rw [← hyx]
      simp [cancelTransform, hypk]
    · rw [← hyx] at hxpk ⊢
      simp only [cancelTransform, if_neg hypk] at hxpk ⊢
      have : y = a := eq_of_mem_pk_nodup hnd hy hamem (hxpk.trans hapk.symm)
      rw [this, ha]
  · intro s2 b hn x hx hxpk
    obtain ⟨c, -, hcmem, hcpend, -, happts, -, -, -⟩ := callNext_ok hn
    rw [happts] at hx
    obtain ⟨y, hy, hyx⟩ := List.mem_map.mp hx
    by_cases hypk : (y.pk == c.pk) = true
    · exfalso
      rw [← hyx] at hxpk
      rw [if_pos hypk] at hxpk
      have hcpk : c.pk = pk := hxpk
      have : c = a := eq_of_mem_pk_nodup hnd hcmem hamem (hcpk.trans hapk.symm)
      rw [this, ha] at hcpend
      cases hcpend
    · rw [← hyx] at hxpk ⊢
      rw [if_neg hypk] at hxpk ⊢
      have : y = a := eq_of_mem_pk_nodup hnd hy hamem (hxpk.trans hapk.symm)
      rw [this, ha]

/-- Witness for C2 amended: confirming the store's single CANCELLED
appointment is refused. -/
theorem C2_cancelled_terminal_witness :
    confirmAppointment demoStateCancelled 10 1 = .error .cannotConfirmCancelled :=
  (C2_cancelled_terminal demoStateCancelled 10 1 1 1 none "2025-01-10 10:00" "sec" ""
    demoAppt1c rfl rfl (by decide)).1

/-! ## C6 -/

/-- **C6.** Saving an already-persisted appointment — whatever the new field
values, including a `scheduled_time` on a different calendar day — never
changes any row's queue number: the whole table's (pk, queue number) pairs
are unchanged. -/
theorem C6_update_keeps_queue_number
    (s : ClinicState) (now pk : Nat) (inp : ApptInput) (s' : ClinicState)
    (hnd : (s.appointments.map (fun x => x.pk)).Nodup)
    (h : updateAppointment s now pk inp = .ok s') :
    s'.appointments.map (fun a => (a.pk, a.queue_number))
      = s.appointments.map (fun a => (a.pk, a.queue_number)) := by
  obtain ⟨old, hfind, happts, -, -, -⟩ := updateAppointment_ok h
  have hmem := List.mem_of_find?_eq_some hfind
  have hpk : old.pk = pk := by simpa using List.find?_some hfind
  rw [happts]
  unfold replaceRow
  rw [List.map_map]
  apply List.map_congr_left
  intro x hx
  by_cases hxpk : (x.pk == pk) = true
  · have hx_eq : x = old :=
      eq_of_mem_pk_nodup hnd hx hmem ((beq_iff_eq.mp hxpk).trans hpk.symm)
    simp only [Function.comp_apply, if_pos hxpk, editedRow, hx_eq]
    simp [hpk]
  · simp only [Function.comp_apply, if_neg hxpk]

/-- `demoAppt1` rescheduled to minute 2000, which lies on local day 1: the
queue number from day 0 is retained. -/
def demoAppt1Moved : Appointment :=
  { demoAppt1 with scheduled_time := some 2000, scheduled_day := some 1 }

/-- Store after rescheduling `demoAppt1` across the day boundary. -/
def demoStateMoved : ClinicState :=
  { demoState1 with appointments := [demoAppt1Moved] }

/-- Witness for C6: rescheduling ticket 1 from day 0 to day 1 keeps its
queue number. -/
theorem C6_update_keeps_queue_number_witness :
    demoStateMoved.appointments.map (fun a => (a.pk, a.queue_number))
      = demoState1.appointments.map (fun a => (a.pk, a.queue_number)) :=
  C6_update_keeps_queue_number demoState1 0 1 (apptInputAt 1 2000) demoStateMoved
    (by decide) rfl

/-! ## C7 -/

/-- A PENDING appointment that has no `scheduled_time` at all. -/
def demoApptNoTime : Appointment :=
  { pk := 1
    patient := 1
    doctor := 1
    scheduled_time := none
    scheduled_day := none
    queue_number := none
    iqd_amount := 0
    notes := ""
    status := .pending }

/-- A store whose only appointment is `demoApptNoTime`. -/
def demoStateNoTime : ClinicState :=
  { appointments := [demoApptNoTime]
    bookingRequests := []
    nextPk := 2
    notifications := 0 }

/-- `demoApptNoTime` after call-next completed it. -/
def demoApptNoTimeDone : Appointment :=
  { demoApptNoTime with status := .completed }

/-- The store after that call-next. -/
def demoStateNoTimeDone : ClinicState :=
  { demoStateNoTime with appointments := [demoApptNoTimeDone] }

/-- **C7 counterexample.** With no PENDING appointment scheduled today,
call-next with an explicit appointment id can still succeed: the guard
`nxt.scheduled_time and nxt.scheduled_time.date() != today` lets a PENDING
appointment whose `scheduled_time` is NULL through, and it gets COMPLETED
instead of the queue-empty report. -/
theorem C7_counterexample :
    pendingToday demoStateNoTime.appointments 1 (dayOf 10) = []
    ∧ callNext demoStateNoTime 10 1 (some 1) = .ok (demoStateNoTimeDone, demoApptNoTimeDone)
    ∧ demoApptNoTimeDone.status = .completed :=
  ⟨rfl, rfl, rfl⟩

/-- **C7 amended.** When no PENDING appointment scheduled today remains for
the doctor and every PENDING appointment of that doctor carries a scheduled
time, call-next — with or without an explicit appointment id — reports the
queue-empty error before touching any row; because the operation is a pure
function of the store, a repeated call returns the same error. -/
theorem C7_queue_empty_idempotent
    (s : ClinicState) (now d : Nat)
    (hempty : pendingToday s.appointments d (dayOf now) = [])
    (htimed : ∀ a ∈ s.appointments, a.doctor = d → a.status = .pending →
        a.scheduled_time.isSome = true) :
    ∀ apptId : Option Nat, callNext s now d apptId = .error .queueEmpty := by
  have hsel : ∀ apptId : Option Nat, callNextSelection s (dayOf now) d apptId = none := by
    intro apptId
    cases apptId with
    | none => simp [callNextSelection, hempty, earliestBy]
    | some i =>
        cases hf : s.appointments.find? (fun x => x.pk == i && x.doctor == d) with
        | none => simp [callNextSelection, hf, hempty, earliestBy]
        | some c =>
            have hcmem := List.mem_of_find?_eq_some hf
            have hcp := List.find?_some hf
            simp only [Bool.and_eq_true, beq_iff_eq] at hcp
            by_cases hcond : (c.status == AppointmentStatus.pending
                && (match c.scheduled_time with
                    | some t => dayOf t == dayOf now
                    | none => true)) = true
            · exfalso
              simp only [Bool.and_eq_true, beq_iff_eq] at hcond
              have hpend : c.status = .pending := hcond.1
              have hts := htimed c hcmem hcp.2 hpend
              cases hst : c.scheduled_time with
              | none => rw [hst] at hts; cases hts
              | some t =>
                  rw [hst] at hcond
                  have hday : dayOf t = dayOf now := by simpa using hcond.2
                  have hin : c ∈ pendingToday s.appointments d (dayOf now) := by
                    unfold pendingToday
                    refine List.mem_filter.mpr ⟨hcmem, ?_⟩
                    simp [hcp.2, hpend, hst, hday]
                  rw [hempty] at hin
                  cases hin
            · simp only [callNextSelection, hf, if_neg hcond, hempty]
              rfl
  intro apptId
  simp [callNext, hsel apptId]

/-- Witness for C7 amended: on a store whose only appointment is COMPLETED,
call-next reports queue-empty both without and with an explicit id. -/
theorem C7_queue_empty_idempotent_witness :
    callNext demoStateDone 10 1 none = .error .queueEmpty
    ∧ callNext demoStateDone 10 1 (some 1) = .error .queueEmpty :=
  ⟨C7_queue_empty_idempotent demoStateDone 10 1 rfl (by decide) none,
   C7_queue_empty_idempotent demoStateDone 10 1 rfl (by decide) (some 1)⟩

/-! ## C8 -/

/-- **C8 counterexample.** Cancel is not "allowed from PENDING only": the
view refuses only COMPLETED appointments, so cancelling an appointment that
is already CANCELLED succeeds (an in-place re-cancel). -/
theorem C8_counterexample :
    demoAppt1c.status = .cancelled
    ∧ cancelAppointment demoStateCancelled 1 "2025-01-10 11:00" "sec" ""
        = .ok demoStateCancelled :=
  ⟨rfl, rfl⟩

/-- **C8 amended.** Cancel fails with the cannot-cancel-completed error iff
the appointment is COMPLETED (so it is allowed from PENDING and, vacuously,
from CANCELLED, where it re-cancels in place); a successful cancel is a soft
state change: the row count is unchanged, the target row's status becomes
CANCELLED, notes receive the audit line exactly when a reason was given, and
the booking-request table is untouched. -/
theorem C8_cancel_characterization
    (s : ClinicState) (pk : Nat) (stamp user reason : String) (a : Appointment)
    (hfind : s.appointments.find? (fun x => x.pk == pk) = some a) :
    (cancelAppointment s pk stamp user reason = .error .cannotCancelCompleted
        ↔ a.status = .completed)
    ∧ ∀ s2, cancelAppointment s pk stamp user reason = .ok s2 →
        s2.appointments = s.appointments.map (cancelTransform pk stamp user reason)
        ∧ s2.appointments.length = s.appointments.length
        ∧ (∀ x ∈ s2.appointments, x.pk = pk → x.status = .cancelled)
        ∧ s2.bookingRequests = s.bookingRequests := by
  constructor
  · constructor
    · intro he
      by_cases hc : a.status = .completed
      · exact hc
      · exfalso
        simp [cancelAppointment, hfind, hc] at he
    · intro hc
      simp [cancelAppointment, hfind, hc]
  · intro s2 hok
    obtain ⟨c, -, -, happts, hbr, -⟩ := cancelAppointment_ok hok
    refine ⟨happts, by rw [happts, List.length_map], ?_, hbr⟩
    intro x hx hxpk
    rw [happts] at hx
    obtain ⟨y, hy, hyx⟩ := List.mem_map.mp hx
    rw [← hyx] at hxpk ⊢
    by_cases hypk : (y.pk == pk) = true
    · simp [cancelTransform, hypk]
    · rw [cancelTransform, if_neg hypk] at hxpk
      exact absurd (beq_iff_eq.mpr hxpk) hypk

/-- Witness for C8 amended: a COMPLETED appointment cannot be cancelled. -/
theorem C8_cancel_characterization_witness :
    cancelAppointment demoStateDone 1 "2025-01-10 11:00" "sec" ""
      = .error .cannotCancelCompleted :=
  ((C8_cancel_characterization demoStateDone 1 "2025-01-10 11:00" "sec" ""
    demoApptDone rfl).1).mpr rfl

/-! ## C9 -/

/-- A public booking request for doctor 1 at minute 10. -/
def demoBookingInp : BookingInput :=
  { full_name := "w"
    contact_info := "c"
    doctor := 1
    scheduled_time := 10 }

/-- **C9 counterexample.** A past-time submission does not always fail with
the past-time error: both checks of `PatientBookingRequest.clean` write to
the same `errors["scheduled_time"]` key, so when the past instant also
coincides with an active appointment the slot-clash message overwrites the
past-time one. -/
theorem C9_counterexample :
    10 + PAST_MARGIN < 100
    ∧ submitBookingRequest demoState1 100 demoBookingInp = .error .slotTaken
    ∧ SchedError.slotTaken ≠ SchedError.pastTime :=
  ⟨by decide, rfl, by decide⟩

/-- **C9 amended.** A submission strictly earlier than now minus the grace
margin always fails and persists nothing; the reported error is the
past-time error unless an active appointment occupies exactly that
(doctor, instant), in which case the slot-clash error is reported instead.
A requested time at or after the bound never yields the past-time error. -/
theorem C9_past_booking (s : ClinicState) (now : Nat) (inp : BookingInput) :
    (inp.scheduled_time + PAST_MARGIN < now →
       submitBookingRequest s now inp
         = .error (if activeClash s.appointments inp.doctor inp.scheduled_time
                   then .slotTaken else .pastTime))
    ∧ (¬ inp.scheduled_time + PAST_MARGIN < now →
       submitBookingRequest s now inp ≠ .error .pastTime) := by
  constructor
  · intro hpast
    by_cases hcl : activeClash s.appointments inp.doctor inp.scheduled_time = true
    · simp [submitBookingRequest, bookingRequestClean, hcl, hpast]
    · rw [Bool.not_eq_true] at hcl
      simp [submitBookingRequest, bookingRequestClean, hcl, hpast]
  · intro hnp
    by_cases hcl : activeClash s.appointments inp.doctor inp.scheduled_time = true
    · simp [submitBookingRequest, bookingRequestClean, hcl]
    · rw [Bool.not_eq_true] at hcl
      simp [submitBookingRequest, bookingRequestClean, hcl, hnp]

/-- Witness for C9 amended: against the empty store a past instant yields
exactly the past-time error, and a current instant never does. -/
theorem C9_past_booking_witness :
    submitBookingRequest initialState 100 demoBookingInp = .error .pastTime
    ∧ submitBookingRequest initialState 0 demoBookingInp ≠ .error .pastTime := by
  constructor
  · have h := (C9_past_booking initialState 100 demoBookingInp).1 (by decide)
    simpa [initialState, activeClash, demoBookingInp] using h
  · exact (C9_past_booking initialState 0 demoBookingInp).2 (by decide)

/-! ## C10 -/

/-- **C10.** The form-layer conflict checks ignore appointment status: a
CANCELLED appointment of the doctor inside the one-minute window makes the
staff form's gap check fire, and one at the exact instant makes the public
booking form's check fire — while, when every appointment of the doctor at
that instant is CANCELLED, the model layer's active-clash checks see the
slot as free. -/
theorem C10_form_checks_ignore_status
    (appts : List Appointment) (d t selfPk : Nat) (a : Appointment)
    (ha : a ∈ appts) (had : a.doctor = d) (hat : a.scheduled_time = some t)
    (_hac : a.status = .cancelled) :
    staffFormGapConflict appts d t none = true
    ∧ publicFormExactConflict appts d t = true
    ∧ ((∀ x ∈ appts, x.doctor = d → x.scheduled_time = some t →
          x.status = .cancelled) →
        activeClash appts d t = false ∧ cleanClash appts selfPk d t = false) := by
  refine ⟨?_, ?_, ?_⟩
  · unfold staffFormGapConflict
    refine List.any_eq_true.mpr ⟨a, ha, ?_⟩
    simp [had, hat, Nat.le_succ]
  · unfold publicFormExactConflict
    exact List.any_eq_true.mpr ⟨a, ha, by simp [had, hat]⟩
  · intro hall
    constructor
    · unfold activeClash
      rw [List.any_eq_false]
      intro x hx
      simp only [Bool.and_eq_true, beq_iff_eq]
      rintro ⟨⟨hxd, hxt⟩, hxa⟩
      have hxc := hall x hx hxd hxt
      simp [isActive, hxc] at hxa
    · unfold cleanClash
      rw [List.any_eq_false]
      intro x hx
      simp only [Bool.and_eq_true, beq_iff_eq]
      rintro ⟨⟨⟨-, hxd⟩, hxt⟩, hxa⟩
      have hxc := hall x hx hxd hxt
      simp [isActive, hxc] at hxa

/-- Witness for C10: the store holding exactly one CANCELLED appointment at
(doctor 1, minute 10) blocks both forms while both model-layer checks pass. -/
theorem C10_form_checks_ignore_status_witness :
    staffFormGapConflict demoStateCancelled.appointments 1 10 none = true
    ∧ publicFormExactConflict demoStateCancelled.appointments 1 10 = true
    ∧ (activeClash demoStateCancelled.appointments 1 10 = false
       ∧ cleanClash demoStateCancelled.appointments 2 1 10 = false) := by
  have h := C10_form_checks_ignore_status demoStateCancelled.appointments 1 10 2
    demoAppt1c (by decide) rfl rfl rfl
  exact ⟨h.1, h.2.1, h.2.2 (by decide)⟩

/-! ## C5 -/

/-- Unpack a violation of the doctor-time uniqueness constraint. -/
theorem timeConflict_elim {a b : Appointment} (h : timeConflict a b = true) :
    a.doctor = b.doctor ∧ a.scheduled_time = b.scheduled_time
    ∧ isActive a = true ∧ isActive b = true := by
  unfold timeConflict at h
  simp only [Bool.and_eq_true, beq_iff_eq] at h
  exact ⟨h.1.1.1.1, h.1.1.2, h.1.2, h.2⟩

/-- Unpack a violation of the doctor-day-queue uniqueness constraint. -/
theorem queueConflict_elim {a b : Appointment} (h : queueConflict a b = true) :
    a.doctor = b.doctor ∧ a.scheduled_day = b.scheduled_day
    ∧ a.queue_number = b.queue_number ∧ isActive a = true ∧ isActive b = true := by
  unfold queueConflict at h
  simp only [Bool.and_eq_true, beq_iff_eq] at h
  exact ⟨h.1.1.1.1.1.1, h.1.1.1.1.2, h.1.1.2, h.1.2, h.2⟩

/-- Creation goes through whenever the requested instant is not past, the
active-clash query comes back empty, and the fresh row is compatible with
every stored row. -/
theorem createAppointment_succeeds
    (s1 : ClinicState) (now : Nat) (inp : ApptInput) (t : Nat)
    (hts : inp.scheduled_time = some t)
    (hnotpast : ¬ t + PAST_MARGIN < now)
    (hclash : cleanClash s1.appointments s1.nextPk inp.doctor t = false)
    (hok : dbConstraintsOk s1.appointments = true)
    (hcompat : ∀ x ∈ s1.appointments, rowsCompatible x (newApptRow s1 inp) = true) :
    createAppointment s1 now inp
      = .ok ({ s1 with
               appointments := s1.appointments ++ [newApptRow s1 inp]
               nextPk := s1.nextPk + 1 }, newApptRow s1 inp) := by
  have hclean : appointmentClean s1.appointments now (newApptRow s1 inp) = .ok () := by
    simp only [appointmentClean, newApptRow, hts]
    simp [hnotpast, hclash]
  have hdb : dbConstraintsOk (s1.appointments ++ [newApptRow s1 inp]) = true :=
    dbConstraintsOk_append_singleton.mpr ⟨hok, hcompat⟩
  unfold createAppointment
  rw [hclean]
  simp [hdb]

/-- **C5.** Rebookability: when the PENDING appointment found at `pk` is the
sole active occupant of (doctor `d`, instant `t`) in a constraint-accepted
store and `t` is not past, cancelling it and then creating a new appointment
for `d` at `t` succeeds — neither the active-clash check of `clean` nor
either storage uniqueness constraint fires — and the new appointment is
ACTIVE (status PENDING) for doctor `d` at instant `t`. -/
theorem C5_rebookable
    (s : ClinicState) (now t d pk : Nat) (stamp user reason : String)
    (inp : ApptInput) (a : Appointment)
    (hfind : s.appointments.find? (fun x => x.pk == pk) = some a)
    (ha : a.status = .pending)
    (_hdoc : a.doctor = d) (_htime : a.scheduled_time = some t)
    (hsole : ∀ x ∈ s.appointments, x.doctor = d → x.scheduled_time = some t →
        isActive x = true → x.pk = pk)
    (hcon : dbConstraintsOk s.appointments = true)
    (hnotpast : ¬ t + PAST_MARGIN < now)
    (hd : inp.doctor = d) (hts : inp.scheduled_time = some t)
    (hst : inp.status = .pending) :
    cancelAppointment s pk stamp user reason
      = .ok { s with appointments := s.appointments.map (cancelTransform pk stamp user reason) }
    ∧ (createAppointment
        { s with appointments := s.appointments.map (cancelTransform pk stamp user reason) }
        now inp).map (fun p => (p.2.status, p.2.doctor, p.2.scheduled_time))
      = .ok (.pending, d, some t) := by
  have hnoactive : ∀ x' ∈ s.appointments.map (cancelTransform pk stamp user reason),
      x'.doctor = d → x'.scheduled_time = some t → isActive x' = true → False := by
    intro x' hx' hx'd hx't hx'a
    obtain ⟨y, hy, rfl⟩ := List.mem_map.mp hx'
    by_cases hypk : (y.pk == pk) = true
    · simp [cancelTransform, hypk, isActive] at hx'a
    · simp only [cancelTransform, if_neg hypk] at hx'd hx't hx'a
      exact hypk (beq_iff_eq.mpr (hsole y hy hx'd hx't hx'a))
  have hclash : cleanClash (s.appointments.map (cancelTransform pk stamp user reason))
      s.nextPk inp.doctor t = false := by
    unfold cleanClash
    rw [List.any_eq_false]
    intro x' hx'
    simp only [Bool.and_eq_true, beq_iff_eq]
    rintro ⟨⟨⟨-, hx'd⟩, hx't⟩, hx'a⟩
    exact hnoactive x' hx' (hx'd.trans hd) hx't hx'a
  have hLok : dbConstraintsOk
      (s.appointments.map (cancelTransform pk stamp user reason)) = true :=
    dbConstraintsOk_map (fun a b hab => rowsCompatible_cancelTransform hab) hcon
  have hBdoc : (newApptRow
      { s with appointments := s.appointments.map (cancelTransform pk stamp user reason) }
      inp).doctor = d := hd
  have hBtime : (newApptRow
      { s with appointments := s.appointments.map (cancelTransform pk stamp user reason) }
      inp).scheduled_time = some t := hts
  have hBday : (newApptRow
      { s with appointments := s.appointments.map (cancelTransform pk stamp user reason) }
      inp).scheduled_day = some (dayOf t) := by
    simp [newApptRow, hts]
  have hBqn : (newApptRow
      { s with appointments := s.appointments.map (cancelTransform pk stamp user reason) }
      inp).queue_number
      = some (nextQueueNumber
          (s.appointments.map (cancelTransform pk stamp user reason)) d (dayOf t)) := by
    simp [newApptRow, hts, hd]
  have hcompat : ∀ x' ∈ s.appointments.map (cancelTransform pk stamp user reason),
      rowsCompatible x'
        (newApptRow
          { s with appointments := s.appointments.map (cancelTransform pk stamp user reason) }
          inp) = true := by
    intro x' hx'
    by_cases hact : isActive x' = true
    · have htc : timeConflict x'
          (newApptRow
            { s with appointments := s.appointments.map (cancelTransform pk stamp user reason) }
            inp) = false := by
        by_contra hcc
        rw [Bool.not_eq_false] at hcc
        obtain ⟨h1, h2, h3, -⟩ := timeConflict_elim hcc
        exact hnoactive x' hx' (h1.trans hBdoc) (h2.trans hBtime) h3
      have hqc : queueConflict x'
          (newApptRow
            { s with appointments := s.appointments.map (cancelTransform pk stamp user reason) }
            inp) = false := by
        by_contra hcc
        rw [Bool.not_eq_false] at hcc
        obtain ⟨h1, h2, h3, h4, -⟩ := queueConflict_elim hcc
        have hlt := nextQueueNumber_gt (l := s.appointments.map (cancelTransform pk stamp user reason))
          hx' h4 (h1.trans hBdoc) (h2.trans hBday)
        rw [h3.trans hBqn] at hlt
        exact absurd hlt (lt_irrefl _)
      simp [rowsCompatible, htc, hqc]
    · rw [Bool.not_eq_true] at hact
      exact rowsCompatible_of_inactive_left hact
  have hcreate := createAppointment_succeeds
    { s with appointments := s.appointments.map (cancelTransform pk stamp user reason) }
    now inp t hts hnotpast hclash hLok hcompat
  constructor
  · simp [cancelAppointment, hfind, ha]
  · rw [hcreate]
    simp only [Except.map, Except.ok.injEq, Prod.mk.injEq]
    exact ⟨hst, hBdoc, hBtime⟩

/-- Witness for C5: cancelling the demo store's single active booking at
(doctor 1, minute 10) and rebooking the same instant succeeds with a PENDING
appointment. -/
theorem C5_rebookable_witness :
    cancelAppointment demoState1 1 "2025-01-10 09:30" "sec" ""
      = .ok { demoState1 with
              appointments := demoState1.appointments.map
                (cancelTransform 1 "2025-01-10 09:30" "sec" "") }
    ∧ (createAppointment
        { demoState1 with
          appointments := demoState1.appointments.map
            (cancelTransform 1 "2025-01-10 09:30" "sec" "") }
        0 (apptInputAt 1 10)).map (fun p => (p.2.status, p.2.doctor, p.2.scheduled_time))
      = .ok (.pending, 1, some 10) :=
  C5_rebookable demoState1 0 10 1 1 "2025-01-10 09:30" "sec" "" (apptInputAt 1 10)
    demoAppt1 rfl rfl rfl rfl (by decide) (by decide) (by decide) rfl rfl rfl

end ClinicHub
